import Mathlib

/-!
Verification of `src/pages/static/pages/js/site.js` (client-side UI glue
for a static documentation site).  Strings are embedded as `List Char`;
DOM and timer state is embedded as explicit state records with a step
function over an event type.  Each section below first translates the
relevant source functions, then proves the claimed properties.
-/

namespace Site

/-! ### HTML escaping (`escapeHtml`, site.js lines 153-160)

`escapeHtml` chains five `String.replaceAll` calls, each with a
single-character pattern.  `replaceAllC c r` is JS
`String.prototype.replaceAll` specialised to a one-character pattern `c`
and replacement `r`. -/

/-- JS `s.replaceAll(String(c), r)` for a single-character pattern. -/
def replaceAllC (c : Char) (r : List Char) : List Char → List Char
  | [] => []
  | x :: xs => (if x = c then r else [x]) ++ replaceAllC c r xs

/-- `escapeHtml` from site.js: the five sequential `replaceAll` calls,
`&` first, then `<`, `>`, `"`, `'`. -/
def escapeHtml (s : List Char) : List Char :=
  replaceAllC '\'' ("&#039;".data)
    (replaceAllC '\"' ("&quot;".data)
      (replaceAllC '>' ("&gt;".data)
        (replaceAllC '<' ("&lt;".data)
          (replaceAllC '&' ("&amp;".data) s))))

/-- Per-character view of `escapeHtml` (the chained `replaceAll`s act
independently on each input character because no replacement string
contains a character replaced by a later stage, other than the `&`
introduced after the `&` stage has already run). -/
def escChar (x : Char) : List Char :=
  if x = '&' then "&amp;".data
  else if x = '<' then "&lt;".data
  else if x = '>' then "&gt;".data
  else if x = '\"' then "&quot;".data
  else if x = '\'' then "&#039;".data
  else [x]

/-- The five entities `escapeHtml` can produce. -/
def htmlEntities : List (List Char) :=
  ["&amp;".data, "&lt;".data, "&gt;".data, "&quot;".data, "&#039;".data]

/-- Inverse entity substitution: scan left to right, turning each of the
five entities back into its character; everything else is copied. -/
def unescapeHtml (l : List Char) : List Char :=
  match l with
  | [] => []
  | x :: xs =>
    if x = '&' then
      if xs.take 4 = "amp;".data then '&' :: unescapeHtml (xs.drop 4)
      else if xs.take 3 = "lt;".data then '<' :: unescapeHtml (xs.drop 3)
      else if xs.take 3 = "gt;".data then '>' :: unescapeHtml (xs.drop 3)
      else if xs.take 5 = "quot;".data then '\"' :: unescapeHtml (xs.drop 5)
      else if xs.take 5 = "#039;".data then '\'' :: unescapeHtml (xs.drop 5)
      else '&' :: unescapeHtml xs
    else x :: unescapeHtml xs
termination_by l.length
decreasing_by
  all_goals simp [List.length_drop]
  all_goals omega

theorem replaceAllC_append (c : Char) (r a b : List Char) :
    replaceAllC c r (a ++ b) = replaceAllC c r a ++ replaceAllC c r b := by
  induction a with
  | nil => rfl
  | cons x xs ih => simp [replaceAllC, ih]

theorem escapeHtml_nil : escapeHtml [] = [] := rfl

theorem escapeHtml_cons (c : Char) (s : List Char) :
    escapeHtml (c :: s) = escChar c ++ escapeHtml s := by
  by_cases h1 : c = '&'
  · subst h1; simp [escapeHtml, escChar, replaceAllC, replaceAllC_append]
  · by_cases h2 : c = '<'
    · subst h2; simp [escapeHtml, escChar, replaceAllC, replaceAllC_append]
    · by_cases h3 : c = '>'
      · subst h3; simp [escapeHtml, escChar, replaceAllC, replaceAllC_append]
      · by_cases h4 : c = '\"'
        · subst h4; simp [escapeHtml, escChar, replaceAllC, replaceAllC_append]
        · by_cases h5 : c = '\''
          · subst h5; simp [escapeHtml, escChar, replaceAllC, replaceAllC_append]
          · simp [escapeHtml, escChar, replaceAllC, replaceAllC_append,
              h1, h2, h3, h4, h5]

theorem unescape_amp (xs : List Char) :
    unescapeHtml ('&' :: 'a' :: 'm' :: 'p' :: ';' :: xs) = '&' :: unescapeHtml xs := by
  rw [unescapeHtml]
  simp [List.take, List.drop]

theorem unescape_lt (xs : List Char) :
    unescapeHtml ('&' :: 'l' :: 't' :: ';' :: xs) = '<' :: unescapeHtml xs := by
  rw [unescapeHtml]
  simp [List.take, List.drop]

theorem unescape_gt (xs : List Char) :
    unescapeHtml ('&' :: 'g' :: 't' :: ';' :: xs) = '>' :: unescapeHtml xs := by
  rw [unescapeHtml]
  simp [List.take, List.drop]

theorem unescape_quot (xs : List Char) :
    unescapeHtml ('&' :: 'q' :: 'u' :: 'o' :: 't' :: ';' :: xs) = '\"' :: unescapeHtml xs := by
  rw [unescapeHtml]
  simp [List.take, List.drop]

theorem unescape_apos (xs : List Char) :
    unescapeHtml ('&' :: '#' :: '0' :: '3' :: '9' :: ';' :: xs) = '\'' :: unescapeHtml xs := by
  rw [unescapeHtml]
  simp [List.take, List.drop]

theorem unescape_other (c : Char) (h : c ≠ '&') (xs : List Char) :
    unescapeHtml (c :: xs) = c :: unescapeHtml xs := by
  rw [unescapeHtml]
  simp [h]

/-- Round trip: un-escaping the escaped string recovers the input. -/
theorem unescape_escape (s : List Char) : unescapeHtml (escapeHtml s) = s := by
  induction s with
  | nil => rw [escapeHtml_nil, unescapeHtml]
  | cons c s ih =>
    rw [escapeHtml_cons]
    by_cases h1 : c = '&'
    · subst h1
      simp only [escChar, if_pos rfl]
      exact (unescape_amp (escapeHtml s)).trans (by rw [ih])
    · by_cases h2 : c = '<'
      · subst h2
        simp only [escChar, reduceIte]
        exact (unescape_lt (escapeHtml s)).trans (by rw [ih])
      · by_cases h3 : c = '>'
        · subst h3
          simp only [escChar, reduceIte]
          exact (unescape_gt (escapeHtml s)).trans (by rw [ih])
        · by_cases h4 : c = '\"'
          · subst h4
            simp only [escChar, reduceIte]
            exact (unescape_quot (escapeHtml s)).trans (by rw [ih])
          · by_cases h5 : c = '\''
            · subst h5
              simp only [escChar, reduceIte]
              exact (unescape_apos (escapeHtml s)).trans (by rw [ih])
            · simp only [escChar, h1, h2, h3, h4, h5, if_neg, List.cons_append,
                List.nil_append, if_false]
              rw [unescape_other c h1, ih]

/-- No literal special character survives escaping. -/
theorem escape_no_special (s : List Char) :
    ∀ x ∈ escapeHtml s, x ≠ '<' ∧ x ≠ '>' ∧ x ≠ '\"' ∧ x ≠ '\'' := by
  induction s with
  | nil => simp [escapeHtml_nil]
  | cons c s ih =>
    rw [escapeHtml_cons]
    intro x hx
    rcases List.mem_append.mp hx with hx | hx
    · by_cases h1 : c = '&'
      · subst h1; simp [escChar] at hx; rcases hx with h | h | h | h | h <;> subst h <;> decide
      · by_cases h2 : c = '<'
        · subst h2; simp [escChar] at hx; rcases hx with h | h | h | h <;> subst h <;> decide
        · by_cases h3 : c = '>'
          · subst h3; simp [escChar] at hx; rcases hx with h | h | h | h <;> subst h <;> decide
          · by_cases h4 : c = '\"'
            · subst h4; simp [escChar] at hx
              rcases hx with h | h | h | h | h | h <;> subst h <;> decide
            · by_cases h5 : c = '\''
              · subst h5; simp [escChar] at hx
                rcases hx with h | h | h | h | h | h <;> subst h <;> decide
              · simp [escChar, h1, h2, h3, h4, h5] at hx
                subst hx
                exact ⟨h2, h3, h4, h5⟩
    · exact ih x hx

/-- Splitting an entity (one leading ampersand, none in the tail) around
an interior ampersand forces the split to happen at the front. -/
theorem entity_split (tail pre c2 : List Char) (hn : '&' ∉ tail)
    (h : '&' :: tail = pre ++ '&' :: c2) : pre = [] ∧ c2 = tail := by
  cases pre with
  | nil =>
    simp only [List.nil_append, List.cons.injEq] at h
    exact ⟨rfl, h.2.symm⟩
  | cons p ps =>
    simp only [List.cons_append, List.cons.injEq] at h
    exact absurd (h.2 ▸ (by simp : '&' ∈ ps ++ '&' :: c2)) hn

/-- Every ampersand in the escaped output starts one of the five entities. -/
theorem escape_amp_entity (s : List Char) :
    ∀ pre post, escapeHtml s = pre ++ '&' :: post →
      ∃ e ∈ htmlEntities, ∃ rest, '&' :: post = e ++ rest := by
  induction s with
  | nil => intro pre post h; rw [escapeHtml_nil] at h; simp at h
  | cons c s ih =>
    intro pre post h
    rw [escapeHtml_cons] at h
    rcases List.append_eq_append_iff.mp h with ⟨a2, _, hb⟩ | ⟨c2, ha, hb⟩
    · exact ih a2 post hb
    · cases c2 with
      | nil =>
        simp only [List.nil_append] at hb
        exact ih [] post hb.symm
      | cons d c2 =>
        simp only [List.cons_append, List.cons.injEq] at hb
        obtain ⟨hd, hpost⟩ := hb
        subst hd
        by_cases h1 : c = '&'
        · subst h1
          simp only [escChar, if_pos rfl] at ha
          obtain ⟨-, hc2⟩ := entity_split "amp;".data pre c2 (by decide) ha
          subst hc2
          exact ⟨"&amp;".data, by simp [htmlEntities], escapeHtml s, by
            rw [hpost]; rfl⟩
        · by_cases h2 : c = '<'
          · subst h2
            simp only [escChar, reduceIte] at ha
            obtain ⟨-, hc2⟩ := entity_split "lt;".data pre c2 (by decide) ha
            subst hc2
            exact ⟨"&lt;".data, by simp [htmlEntities], escapeHtml s, by
              rw [hpost]; rfl⟩
          · by_cases h3 : c = '>'
            · subst h3
              simp only [escChar, reduceIte] at ha
              obtain ⟨-, hc2⟩ := entity_split "gt;".data pre c2 (by decide) ha
              subst hc2
              exact ⟨"&gt;".data, by simp [htmlEntities], escapeHtml s, by
                rw [hpost]; rfl⟩
            · by_cases h4 : c = '\"'
              · subst h4
                simp only [escChar, reduceIte] at ha
                obtain ⟨-, hc2⟩ := entity_split "quot;".data pre c2 (by decide) ha
                subst hc2
                exact ⟨"&quot;".data, by simp [htmlEntities], escapeHtml s, by
                  rw [hpost]; rfl⟩
              · by_cases h5 : c = '\''
                · subst h5
                  simp only [escChar, reduceIte] at ha
                  obtain ⟨-, hc2⟩ := entity_split "#039;".data pre c2 (by decide) ha
                  subst hc2
                  exact ⟨"&#039;".data, by simp [htmlEntities], escapeHtml s, by
                    rw [hpost]; rfl⟩
                · simp only [escChar, h1, h2, h3, h4, h5, if_neg, if_false] at ha
                  cases pre with
                  | nil =>
                    simp only [List.nil_append, List.cons.injEq] at ha
                    exact absurd ha.1 h1
                  | cons p ps => simp at ha

/-- Claim C1: for every string `s`, `escapeHtml s` contains no literal
`<`, `>`, `"` or `'`; every `&` in the output is the leading character
of one of the five produced entities; and the inverse entity
substitution applied to the output recovers `s` exactly. -/
theorem claimC1 (s : List Char) :
    (∀ x ∈ escapeHtml s, x ≠ '<' ∧ x ≠ '>' ∧ x ≠ '\"' ∧ x ≠ '\'') ∧
    (∀ pre post, escapeHtml s = pre ++ '&' :: post →
      ∃ e ∈ htmlEntities, ∃ rest, '&' :: post = e ++ rest) ∧
    unescapeHtml (escapeHtml s) = s :=
  ⟨escape_no_special s, escape_amp_entity s, unescape_escape s⟩

/-- Concrete instance of C1: escaping `a<b&c"d'e` and un-escaping it, and
the entity-position property at the first ampersand of the output. -/
theorem claimC1_witness :
    (('a' : Char) ≠ '<' ∧ ('a' : Char) ≠ '>' ∧ ('a' : Char) ≠ '\"' ∧ ('a' : Char) ≠ '\'') ∧
    (∃ e ∈ htmlEntities, ∃ rest,
      '&' :: "lt;b&amp;c&quot;d&#039;e".data = e ++ rest) ∧
    unescapeHtml (escapeHtml "a<b&c\"d'e".data) = "a<b&c\"d'e".data :=
  ⟨(claimC1 "a<b&c\"d'e".data).1 'a' (by decide),
   (claimC1 "a<b&c\"d'e".data).2.1 ['a'] "lt;b&amp;c&quot;d&#039;e".data (by decide),
   (claimC1 "a<b&c\"d'e".data).2.2⟩

/-! ### Theme controller (site.js lines 19-29)

The document's `data-theme` attribute and the persisted `localStorage`
value are each `Option String` (`none` = attribute absent / key absent). -/

structure ThemeState where
  attr : Option String
  stored : Option String
deriving DecidableEq

/-- The load-time application of the saved theme (site.js lines 19-20):
`if (saved === "light" || saved === "dark") root.setAttribute("data-theme", saved)`.
Returns the resulting `data-theme` attribute. -/
def applyStoredTheme (stored : Option String) (attr : Option String) : Option String :=
  if stored = some "light" ∨ stored = some "dark" then stored else attr

/-- The `themeToggle` click handler (site.js lines 23-28): read the
current attribute, flip (anything other than `"dark"` flips to
`"dark"`, `"dark"` flips to `"light"`), set the attribute and persist. -/
def toggleTheme (s : ThemeState) : ThemeState :=
  let next := if s.attr = some "dark" then "light" else "dark"
  ⟨some next, some next⟩

/-- Apparent theme classification: the toggle (and the spec) treat any
non-`dark` attribute value, including an absent attribute, as light. -/
def apparentDark (attr : Option String) : Bool := attr = some "dark"

/-- Claim C2: starting from an absent theme preference (no `data-theme`
attribute, nothing stored), toggling twice returns the document to its
original apparent theme state; the two presses set the attribute to
`"dark"` and then `"light"`. -/
theorem claimC2 :
    apparentDark ((toggleTheme (toggleTheme ⟨none, none⟩)).attr) = apparentDark none ∧
    (toggleTheme (⟨none, none⟩ : ThemeState)).attr = some "dark" ∧
    (toggleTheme (toggleTheme ⟨none, none⟩)).attr = some "light" := by
  refine ⟨?_, ?_, ?_⟩ <;> rfl

/-- Claim C9: applying the stored theme sets the attribute exactly when
the stored value is `"light"` or `"dark"`; any other stored value
(including absence) leaves the attribute unchanged, and the operation is
total (no error). -/
theorem claimC9 (stored attr : Option String) :
    ((stored = some "light" ∨ stored = some "dark") →
      applyStoredTheme stored attr = stored) ∧
    ((stored ≠ some "light" ∧ stored ≠ some "dark") →
      applyStoredTheme stored attr = attr) := by
  constructor
  · intro h
    simp [applyStoredTheme, h]
  · intro ⟨h1, h2⟩
    simp [applyStoredTheme, h1, h2]

/-- Concrete instance of C9: a valid stored value is applied, a
malformed one is ignored. -/
theorem claimC9_witness :
    applyStoredTheme (some "light") none = some "light" ∧
    applyStoredTheme (some "weird") (some "dark") = some "dark" :=
  ⟨(claimC9 (some "light") none).1 (Or.inl rfl),
   (claimC9 (some "weird") (some "dark")).2 ⟨by decide, by decide⟩⟩

/-! ### Drawer controller (site.js lines 38-71)

State: the drawer's `hidden` attribute, the toggle button's
`aria-expanded` value, and `document.body.style.overflow`. -/

structure DrawerState where
  hidden : Bool
  ariaExpanded : String
  overflow : String
deriving DecidableEq

/-- `openDrawer()` (site.js lines 38-43). -/
def openDrawer (_ : DrawerState) : DrawerState :=
  ⟨false, "true", "hidden"⟩

/-- `closeDrawer()` (site.js lines 44-49). -/
def closeDrawer (_ : DrawerState) : DrawerState :=
  ⟨true, "false", ""⟩

/-- The drawer-related DOM events (site.js lines 51-71).  `targetIsDrawer`
models `e.target === drawer`; `isEscape` models `e.key === "Escape"`;
`wide` models `matchMedia("(min-width: 981px)").matches` at resize time. -/
inductive DrawerEvent where
  | toggleClick : DrawerEvent
  | closeClick : DrawerEvent
  | drawerClick (targetIsDrawer : Bool) : DrawerEvent
  | keydown (isEscape : Bool) : DrawerEvent
  | resize (wide : Bool) : DrawerEvent
deriving DecidableEq

def drawerStep : DrawerEvent → DrawerState → DrawerState
  | .toggleClick, s => if s.hidden then openDrawer s else closeDrawer s
  | .closeClick, s => closeDrawer s
  | .drawerClick t, s => if t then closeDrawer s else s
  | .keydown esc, s => if esc && !s.hidden then closeDrawer s else s
  | .resize wide, s => if wide then closeDrawer s else s

/-- Claim C8: while the drawer is open, the explicit close button, a
click whose target is exactly the drawer container, an Escape keypress,
and a resize into the wide (≥ 981px) breakpoint each put it in the
closed state — hidden, `aria-expanded="false"`, scrolling restored —
which is the exact reverse of the three effects of opening. -/
theorem claimC8 (s : DrawerState) (hopen : s.hidden = false) :
    drawerStep .closeClick s = ⟨true, "false", ""⟩ ∧
    drawerStep (.drawerClick true) s = ⟨true, "false", ""⟩ ∧
    drawerStep (.keydown true) s = ⟨true, "false", ""⟩ ∧
    drawerStep (.resize true) s = ⟨true, "false", ""⟩ ∧
    openDrawer s = ⟨false, "true", "hidden"⟩ := by
  refine ⟨rfl, rfl, ?_, rfl, rfl⟩
  simp [drawerStep, hopen, closeDrawer]

/-- Concrete instance of C8 at the state produced by opening the drawer. -/
theorem claimC8_witness :
    drawerStep .closeClick ⟨false, "true", "hidden"⟩ = ⟨true, "false", ""⟩ ∧
    drawerStep (.drawerClick true) ⟨false, "true", "hidden"⟩ = ⟨true, "false", ""⟩ ∧
    drawerStep (.keydown true) ⟨false, "true", "hidden"⟩ = ⟨true, "false", ""⟩ ∧
    drawerStep (.resize true) ⟨false, "true", "hidden"⟩ = ⟨true, "false", ""⟩ ∧
    openDrawer ⟨false, "true", "hidden"⟩ = ⟨false, "true", "hidden"⟩ :=
  claimC8 ⟨false, "true", "hidden"⟩ rfl

/-! ### Table-of-contents slug assignment (site.js lines 136-143)

`h.id = h.textContent.toLowerCase().trim()
  .replace(/[^\w\s-]/g, "").replace(/\s+/g, "-")`. -/

/-- The JS regex `\s` class (whitespace as matched by `/\s/` and removed
by `String.prototype.trim`). -/
def jsIsSpace (c : Char) : Bool :=
  c = ' ' || c = '\t' || c = '\n' || c = '\x0b' || c = '\x0c' || c = '\r' ||
  c = '\u00A0' || c = '\u1680' ||
  ('\u2000' ≤ c && c ≤ '\u200A') ||
  c = '\u2028' || c = '\u2029' || c = '\u202F' || c = '\u205F' ||
  c = '\u3000' || c = '\uFEFF'

/-- The JS regex `\w` class: `[A-Za-z0-9_]`. -/
def jsIsWordChar (c : Char) : Bool :=
  ('a' ≤ c && c ≤ 'z') || ('A' ≤ c && c ≤ 'Z') || ('0' ≤ c && c ≤ '9') || c = '_'

/-- JS `String.prototype.trim`: strip leading and trailing whitespace. -/
def trimWs (s : List Char) : List Char :=
  ((s.dropWhile jsIsSpace).reverse.dropWhile jsIsSpace).reverse

/-- JS `.replace(/[^\w\s-]/g, "")`: keep only word characters,
whitespace and hyphens. -/
def stripNonWord (s : List Char) : List Char :=
  s.filter (fun c => jsIsWordChar c || jsIsSpace c || c = '-')

/-- JS `.replace(/\s+/g, "-")`: each maximal whitespace run becomes a
single hyphen.  `inRun` records whether the previous character belonged
to a run whose hyphen has already been emitted. -/
def collapseWsAux (inRun : Bool) : List Char → List Char
  | [] => []
  | c :: cs =>
    if jsIsSpace c then
      if inRun then collapseWsAux true cs else '-' :: collapseWsAux true cs
    else c :: collapseWsAux false cs

def collapseWs (s : List Char) : List Char := collapseWsAux false s

/-- The slug assigned to a heading with no id (site.js lines 138-142). -/
def slugify (s : List Char) : List Char :=
  collapseWs (stripNonWord (trimWs (s.map Char.toLower)))

/-- Claim C6: the slug is the heading text lowercased, trimmed, stripped
of characters outside word-characters/whitespace/hyphen, with whitespace
runs collapsed to single hyphens; in particular `"Getting Started!"`
slugifies to `"getting-started"`. -/
theorem claimC6 :
    slugify "Getting Started!".data = "getting-started".data ∧
    ∀ s : List Char,
      slugify s = collapseWs (stripNonWord (trimWs (s.map Char.toLower))) :=
  ⟨by decide, fun _ => rfl⟩

/-! ### Accordion tree renderer (site.js lines 86-128)

A `NavNode` is `{ title, url, children }`.  The renderer's template
literals are embedded as a fragment tree `Frag` that records, for each
emitted element, exactly the data the template interpolates: a leaf
renders as a plain link (`<a class=... href=...>`); a branch renders as
a collapsible wrapper (`section` at depth 0 via `renderNode`, `div`
below via `renderChild`) holding `data-acc`, `aria-expanded`, a toggle
button with `data-acc-toggle`, the title span, the overview link, and
the recursively rendered children. -/

inductive NavNode where
  | mk (title : List Char) (url : List Char) (children : List NavNode)

def NavNode.title : NavNode → List Char
  | .mk t _ _ => t

def NavNode.url : NavNode → List Char
  | .mk _ u _ => u

def NavNode.children : NavNode → List NavNode
  | .mk _ _ cs => cs

/-- Wrap to a signed 32-bit integer (the JS `| 0` coercion). -/
def toInt32 (n : Int) : Int := (n + 2 ^ 31) % 2 ^ 32 - 2 ^ 31

/-- One step of `hash` (site.js line 166):
`h = ((h << 5) - h) + s.charCodeAt(i); h |= 0`.
`h << 5` itself operates on 32 bits, hence the inner wrap. -/
def hashStep (h : Int) (c : Char) : Int :=
  toInt32 (toInt32 (h * 32) - h + c.toNat)

/-- `hash` (site.js lines 164-168): fold `hashStep` from 0, then
`String(Math.abs(h))`. -/
def jsHash (s : List Char) : List Char :=
  (toString (s.foldl hashStep 0).natAbs).data

/-- `escHtml` (site.js line 161). -/
def escHtml (s : List Char) : List Char := escapeHtml s

/-- `escAttr` (site.js line 162). -/
def escAttr (s : List Char) : List Char := escapeHtml s

/-- The derived accordion identifier `"acc_" + hash(node.url)`. -/
def accIdOf (url : List Char) : List Char := "acc_".data ++ jsHash url

/-- `\x7bindentClass\x7d`: `" acc__child--indent"` when depth > 0. -/
def indentClass (depth : Nat) : List Char :=
  if depth > 0 then " acc__child--indent".data else []

/-- A rendered fragment.  `link cls href label` is the plain `<a>` a
leaf produces; `acc tag accId toggleId expanded title overviewHref
overviewLabel kids` is the collapsible wrapper a branch produces
(`tag` is `"section"` or `"div"`, `accId` the `data-acc` value,
`toggleId` the button's `data-acc-toggle` value, `expanded` the
`aria-expanded` value). -/
inductive Frag where
  | link (cls href label : List Char) : Frag
  | acc (tag accId toggleId expanded title overviewHref overviewLabel : List Char)
      (kids : List Frag) : Frag

mutual

/-- `renderChild` (site.js lines 108-128). -/
def renderChild : NavNode → Nat → Frag
  | .mk title url children, depth =>
    if children.isEmpty then
      .link ("acc__child".data ++ indentClass depth) (escAttr url) (escHtml title)
    else
      .acc "div".data (escAttr (accIdOf url)) (escAttr (accIdOf url)) "false".data
        (escHtml title) (escAttr url) (escHtml title ++ " overview".data)
        (renderChildren children (depth + 1))

/-- `node.children.map((c) => renderChild(c, depth + 1))`. -/
def renderChildren : List NavNode → Nat → List Frag
  | [], _ => []
  | n :: ns, depth => renderChild n depth :: renderChildren ns depth

end

/-- `renderNode` (site.js lines 86-106). -/
def renderNode (node : NavNode) (depth : Nat) : Frag :=
  match node with
  | .mk title url children =>
    if children.isEmpty then
      .link ("drawer__leaf".data ++ indentClass depth) (escAttr url) (escHtml title)
    else
      .acc "section".data (escAttr (accIdOf url)) (escAttr (accIdOf url)) "false".data
        (escHtml title) (escAttr url) (escHtml title ++ " overview".data)
        (renderChildren children (depth + 1))

mutual

/-- Number of toggle-button/panel pairs (collapsible wrappers) in a fragment. -/
def accCount : Frag → Nat
  | .link _ _ _ => 0
  | .acc _ _ _ _ _ _ _ kids => 1 + accCountList kids

def accCountList : List Frag → Nat
  | [] => 0
  | f :: fs => accCount f + accCountList fs

end

mutual

/-- Number of branch nodes (non-empty `children`) in a nav tree. -/
def branchCount : NavNode → Nat
  | .mk _ _ children => (if children.isEmpty then 0 else 1) + branchCountList children

def branchCountList : List NavNode → Nat
  | [] => 0
  | n :: ns => branchCount n + branchCountList ns

end

mutual

/-- Every collapsible wrapper pairs its button with its panel: the
`data-acc-toggle` value equals the `data-acc` value, recursively. -/
def pairedOk : Frag → Bool
  | .link _ _ _ => true
  | .acc _ accId toggleId _ _ _ _ kids => (accId = toggleId) && pairedOkList kids

def pairedOkList : List Frag → Bool
  | [] => true
  | f :: fs => pairedOk f && pairedOkList fs

end

mutual

/-- Every collapsible wrapper carries `aria-expanded="false"`, recursively. -/
def expandedOk : Frag → Bool
  | .link _ _ _ => true
  | .acc _ _ _ expanded _ _ _ kids => (expanded = "false".data) && expandedOkList kids

def expandedOkList : List Frag → Bool
  | [] => true
  | f :: fs => expandedOk f && expandedOkList fs

end

mutual

theorem accCount_renderChild (n : NavNode) (d : Nat) :
    accCount (renderChild n d) = branchCount n := by
  cases n with
  | mk t u cs =>
    by_cases h : cs.isEmpty
    · rw [List.isEmpty_iff] at h
      subst h
      simp [renderChild, accCount, branchCount, branchCountList]
    · simp [renderChild, h, accCount, branchCount,
        accCount_renderChildren cs (d + 1)]
termination_by sizeOf n

theorem accCount_renderChildren (ns : List NavNode) (d : Nat) :
    accCountList (renderChildren ns d) = branchCountList ns := by
  cases ns with
  | nil => simp [renderChildren, accCountList, branchCountList]
  | cons n ns =>
    simp [renderChildren, accCountList, branchCountList,
      accCount_renderChild n d, accCount_renderChildren ns d]
termination_by sizeOf ns

end

mutual

theorem paired_renderChild (n : NavNode) (d : Nat) :
    pairedOk (renderChild n d) = true := by
  cases n with
  | mk t u cs =>
    by_cases h : cs.isEmpty
    · rw [List.isEmpty_iff] at h
      subst h
      simp [renderChild, pairedOk]
    · simp [renderChild, h, pairedOk, paired_renderChildren cs (d + 1)]
termination_by sizeOf n

theorem paired_renderChildren (ns : List NavNode) (d : Nat) :
    pairedOkList (renderChildren ns d) = true := by
  cases ns with
  | nil => simp [renderChildren, pairedOkList]
  | cons n ns =>
    simp [renderChildren, pairedOkList, paired_renderChild n d,
      paired_renderChildren ns d]
termination_by sizeOf ns

end

mutual

theorem expanded_renderChild (n : NavNode) (d : Nat) :
    expandedOk (renderChild n d) = true := by
  cases n with
  | mk t u cs =>
    by_cases h : cs.isEmpty
    · rw [List.isEmpty_iff] at h
      subst h
      simp [renderChild, expandedOk]
    · simp [renderChild, h, expandedOk, expanded_renderChildren cs (d + 1)]
termination_by sizeOf n

theorem expanded_renderChildren (ns : List NavNode) (d : Nat) :
    expandedOkList (renderChildren ns d) = true := by
  cases ns with
  | nil => simp [renderChildren, expandedOkList]
  | cons n ns =>
    simp [renderChildren, expandedOkList, expanded_renderChild n d,
      expanded_renderChildren ns d]
termination_by sizeOf ns

end

/-- Claim C5: for every NavNode tree, the accordion renderer's output
holds exactly one toggle-button/panel pair per branch node, every pair's
button and panel share the same derived identifier, and a leaf node
renders as a plain link (no toggle button, no panel). -/
theorem claimC5 (n : NavNode) (d : Nat) :
    accCount (renderNode n d) = branchCount n ∧
    pairedOk (renderNode n d) = true ∧
    (n.children = [] →
      renderNode n d =
        .link ("drawer__leaf".data ++ indentClass d) (escAttr n.url) (escHtml n.title)) := by
  cases n with
  | mk t u cs =>
    by_cases h : cs.isEmpty
    · rw [List.isEmpty_iff] at h
      subst h
      refine ⟨?_, ?_, fun _ => ?_⟩ <;>
        simp [renderNode, accCount, branchCount, branchCountList, pairedOk,
          NavNode.url, NavNode.title]
    · refine ⟨?_, ?_, fun hc => ?_⟩
      · simp [renderNode, h, accCount, branchCount,
          accCount_renderChildren cs (d + 1)]
      · simp [renderNode, h, pairedOk, paired_renderChildren cs (d + 1)]
      · exact absurd (by simpa [NavNode.children] using hc) (by simpa using h)

/-- Concrete instance of C5 at a leaf node. -/
theorem claimC5_witness :
    renderNode (.mk "About".data "/about".data []) 0 =
      .link ("drawer__leaf".data ++ indentClass 0) (escAttr "/about".data)
        (escHtml "About".data) :=
  (claimC5 (.mk "About".data "/about".data []) 0).2.2 rfl

/-- Claim C10: for every NavNode tree, every collapsible section in the
freshly rendered accordion output carries `aria-expanded="false"`, at
every depth. -/
theorem claimC10 (n : NavNode) (d : Nat) :
    expandedOk (renderNode n d) = true := by
  cases n with
  | mk t u cs =>
    by_cases h : cs.isEmpty
    · rw [List.isEmpty_iff] at h
      subst h
      simp [renderNode, expandedOk]
    · simp [renderNode, h, expandedOk, expanded_renderChildren cs (d + 1)]

/-! ### Desktop hover-menu controller (site.js lines 172-262)

State: `desktop` models `mqDesktop.matches`; `active` the module
variable `active` (index of the open `.menu__item.has-sub`, if any);
`openSet` the set of items whose class list contains `is-open`;
`closeTimer` the module variable `closeTimer` (a timer id, if non-null);
`pending` the timers actually pending in the event loop, each with its
delay in milliseconds; `nextId` a supply of fresh timer ids.  A timer
that has fired or been cancelled leaves `pending`; `closeTimer` may
keep a stale id afterwards, exactly as in the source (where `doClose`
never nulls `closeTimer`). -/

structure MenuState where
  desktop : Bool
  active : Option Nat
  openSet : Finset Nat
  closeTimer : Option Nat
  pending : List (Nat × Nat)
  nextId : Nat
deriving DecidableEq

/-- The 120ms deferred-close delay (site.js line 195). -/
def closeDelay : Nat := 120

/-- `clearCloseTimer()` (site.js lines 179-184). -/
def clearCloseTimer (s : MenuState) : MenuState :=
  match s.closeTimer with
  | some id =>
    { s with
      pending := s.pending.filter (fun p => p.1 ≠ id)
      closeTimer := none }
  | none => s

/-- The body of `doClose` (site.js lines 188-193): un-mark and forget
whatever item is active at the moment it runs. -/
def doClose (s : MenuState) : MenuState :=
  match s.active with
  | some i => { s with openSet := s.openSet.erase i, active := none }
  | none => s

/-- `closeActive(immediate)` (site.js lines 186-196): always clear the
pending timer first; then either close now or schedule `doClose` after
`closeDelay`. -/
def closeActive (immediate : Bool) (s : MenuState) : MenuState :=
  let s1 := clearCloseTimer s
  if immediate then doClose s1
  else
    { s1 with
      pending := s1.pending ++ [(s1.nextId, closeDelay)]
      closeTimer := some s1.nextId
      nextId := s1.nextId + 1 }

/-- `openItem(li)` (site.js lines 198-203): clear the pending timer,
un-mark any other open item immediately, then mark and record this one. -/
def openItem (i : Nat) (s : MenuState) : MenuState :=
  let s1 := clearCloseTimer s
  let s2 :=
    match s1.active with
    | some j => if j ≠ i then { s1 with openSet := s1.openSet.erase j } else s1
    | none => s1
  { s2 with active := some i, openSet := insert i s2.openSet }

/-- A pending timer with id `id` fires: run `doClose` and leave the
pending set.  A cancelled or already-fired id never fires. -/
def fireTimer (id : Nat) (s : MenuState) : MenuState :=
  if s.pending.any (fun p => p.1 = id) then
    doClose { s with pending := s.pending.filter (fun p => p.1 ≠ id) }
  else s

/-- The hover-menu events.  `toSub` models
`submenu.contains(e.relatedTarget)` on an item's pointerleave; `toItem`
models `li.contains(e.relatedTarget)` on a submenu's pointerleave;
`inMenubar` models `e.target.closest(".menubar")` being non-null. -/
inductive MenuEvent where
  | enterItem (i : Nat) : MenuEvent
  | leaveItem (i : Nat) (toSub : Bool) : MenuEvent
  | enterSub (i : Nat) : MenuEvent
  | leaveSub (i : Nat) (toItem : Bool) : MenuEvent
  | timerFire (id : Nat) : MenuEvent
  | pointerDown (inMenubar : Bool) : MenuEvent
  | escapeKey : MenuEvent
  | breakpoint (nowDesktop : Bool) : MenuEvent
deriving DecidableEq

/-- One event-handler invocation (site.js lines 210-262).  Handlers for
pointer events, pointerdown and Escape first check `mqDesktop.matches`;
the breakpoint-change handler does not, and runs after the media query
value has flipped. -/
def menuStep : MenuEvent → MenuState → MenuState
  | .enterItem i, s => if s.desktop then openItem i s else s
  | .leaveItem _ toSub, s =>
      if s.desktop then (if toSub then s else closeActive false s) else s
  | .enterSub i, s => if s.desktop then openItem i (clearCloseTimer s) else s
  | .leaveSub _ toItem, s =>
      if s.desktop then (if toItem then s else closeActive false s) else s
  | .timerFire id, s => fireTimer id s
  | .pointerDown inMenubar, s =>
      if s.desktop then (if inMenubar then s else closeActive true s) else s
  | .escapeKey, s => if s.desktop then closeActive true s else s
  | .breakpoint d, s => closeActive true { s with desktop := d }

/-- The state `setupDesktopMenus()` establishes (site.js lines 205-208):
no `is-open` class anywhere, no active item, no timer. -/
def initMenu (d : Bool) : MenuState := ⟨d, none, ∅, none, [], 0⟩

/-- States reachable from initialisation by any event sequence. -/
inductive MenuReach : MenuState → Prop where
  | init (d : Bool) : MenuReach (initMenu d)
  | next (e : MenuEvent) (s : MenuState) : MenuReach s → MenuReach (menuStep e s)

/-- The set of items the `active` variable accounts for. -/
def activeSet : Option Nat → Finset Nat
  | none => ∅
  | some i => {i}

/-- The controller invariant: the `is-open` markers are exactly the
active item, and at most one deferred close is pending — namely the one
`closeTimer` stores, with the fixed 120ms delay. -/
def MenuInv (s : MenuState) : Prop :=
  s.openSet = activeSet s.active ∧
  (s.pending = [] ∨
    ∃ id, s.closeTimer = some id ∧ s.pending = [(id, closeDelay)])

theorem clearCloseTimer_fields (s : MenuState) (h : MenuInv s) :
    (clearCloseTimer s).pending = [] ∧
    (clearCloseTimer s).openSet = s.openSet ∧
    (clearCloseTimer s).active = s.active ∧
    (clearCloseTimer s).nextId = s.nextId ∧
    (clearCloseTimer s).desktop = s.desktop := by
  obtain ⟨-, hp | ⟨id, hct, hp⟩⟩ := h
  · cases hct : s.closeTimer with
    | none => simp [clearCloseTimer, hct, hp]
    | some id => simp [clearCloseTimer, hct, hp]
  · simp [clearCloseTimer, hct, hp, List.filter]

theorem menuInv_clear (s : MenuState) (h : MenuInv s) :
    MenuInv (clearCloseTimer s) := by
  obtain ⟨hp, ho, ha, -, -⟩ := clearCloseTimer_fields s h
  exact ⟨by rw [ho, ha]; exact h.1, Or.inl hp⟩

theorem menuInv_doClose (s : MenuState) (h : MenuInv s) :
    MenuInv (doClose s) := by
  cases ha : s.active with
  | none => simpa [doClose, ha] using h
  | some i =>
    refine ⟨?_, ?_⟩
    · simp [doClose, ha, h.1, activeSet]
    · simpa [doClose, ha] using h.2

theorem menuInv_closeActive (imm : Bool) (s : MenuState) (h : MenuInv s) :
    MenuInv (closeActive imm s) := by
  obtain ⟨hp, ho, ha, -, -⟩ := clearCloseTimer_fields s h
  have hc := menuInv_clear s h
  cases imm with
  | true => simpa [closeActive] using menuInv_doClose _ hc
  | false =>
    refine ⟨?_, Or.inr ⟨(clearCloseTimer s).nextId, ?_, ?_⟩⟩
    · simpa [closeActive] using hc.1
    · simp [closeActive]
    · simp [closeActive, hp]

theorem menuInv_openItem (i : Nat) (s : MenuState) (h : MenuInv s) :
    MenuInv (openItem i s) := by
  obtain ⟨hp, ho, ha, -, -⟩ := clearCloseTimer_fields s h
  have hc := menuInv_clear s h
  refine ⟨?_, ?_⟩
  · cases hact : (clearCloseTimer s).active with
    | none =>
      have : (clearCloseTimer s).openSet = ∅ := by
        rw [hc.1, hact]; rfl
      simp [openItem, hact, this, activeSet]
    | some j =>
      have hos : (clearCloseTimer s).openSet = {j} := by
        rw [hc.1, hact]; rfl
      by_cases hji : j = i
      · subst hji
        simp [openItem, hact, hos, activeSet]
      · simp [openItem, hact, hji, hos, activeSet, Finset.erase_singleton]
  · cases hact : (clearCloseTimer s).active with
    | none => simpa [openItem, hact] using Or.inl hp
    | some j =>
      by_cases hji : j = i
      · subst hji; simpa [openItem, hact] using Or.inl hp
      · simpa [openItem, hact, hji] using Or.inl hp

theorem menuInv_fireTimer (id : Nat) (s : MenuState) (h : MenuInv s) :
    MenuInv (fireTimer id s) := by
  rcases h.2 with hp | ⟨tid, hct, hp⟩
  · simp [fireTimer, hp]
    exact h
  · by_cases hid : id = tid
    · subst hid
      have hany : s.pending.any (fun p => p.1 = id) = true := by simp [hp]
      have : MenuInv { s with pending := s.pending.filter (fun p => p.1 ≠ id) } :=
        ⟨h.1, Or.inl (by simp [hp])⟩
      simpa [fireTimer, hany] using menuInv_doClose _ this
    · have hany : s.pending.any (fun p => p.1 = id) = false := by
        simp [hp, Ne.symm hid]
      simp [fireTimer, hany]
      exact h

theorem menuInv_step (e : MenuEvent) (s : MenuState) (h : MenuInv s) :
    MenuInv (menuStep e s) := by
  have hdesk : ∀ d, MenuInv { s with desktop := d } := fun d => ⟨h.1, h.2⟩
  cases e with
  | enterItem i =>
    by_cases hd : s.desktop
    · simpa [menuStep, hd] using menuInv_openItem i s h
    · simpa [menuStep, hd] using h
  | leaveItem i toSub =>
    by_cases hd : s.desktop
    · cases toSub with
      | true => simpa [menuStep, hd] using h
      | false => simpa [menuStep, hd] using menuInv_closeActive false s h
    · simpa [menuStep, hd] using h
  | enterSub i =>
    by_cases hd : s.desktop
    · simpa [menuStep, hd] using menuInv_openItem i _ (menuInv_clear s h)
    · simpa [menuStep, hd] using h
  | leaveSub i toItem =>
    by_cases hd : s.desktop
    · cases toItem with
      | true => simpa [menuStep, hd] using h
      | false => simpa [menuStep, hd] using menuInv_closeActive false s h
    · simpa [menuStep, hd] using h
  | timerFire id => simpa [menuStep] using menuInv_fireTimer id s h
  | pointerDown inMenubar =>
    by_cases hd : s.desktop
    · cases inMenubar with
      | true => simpa [menuStep, hd] using h
      | false => simpa [menuStep, hd] using menuInv_closeActive true s h
    · simpa [menuStep, hd] using h
  | escapeKey =>
    by_cases hd : s.desktop
    · simpa [menuStep, hd] using menuInv_closeActive true s h
    · simpa [menuStep, hd] using h
  | breakpoint d =>
    simpa [menuStep] using menuInv_closeActive true _ (hdesk d)

theorem menuInv_init (d : Bool) : MenuInv (initMenu d) :=
  ⟨rfl, Or.inl rfl⟩

theorem menuInv_reach (s : MenuState) (h : MenuReach s) : MenuInv s := by
  induction h with
  | init d => exact menuInv_init d
  | next e s _ ih => exact menuInv_step e s ih

theorem openItem_spec (i : Nat) (s : MenuState) (h : MenuInv s) :
    (openItem i s).openSet = {i} ∧ (openItem i s).pending = [] ∧
    (openItem i s).active = some i ∧ (openItem i s).desktop = s.desktop := by
  obtain ⟨hp, ho, ha, hn, hd⟩ := clearCloseTimer_fields s h
  have hc := menuInv_clear s h
  cases hact : (clearCloseTimer s).active with
  | none =>
    have hos : (clearCloseTimer s).openSet = ∅ := by rw [hc.1, hact]; rfl
    refine ⟨?_, ?_, ?_, ?_⟩ <;> simp [openItem, hact, hos, hp, hd]
  | some j =>
    have hos : (clearCloseTimer s).openSet = {j} := by rw [hc.1, hact]; rfl
    by_cases hji : j = i
    · subst hji
      refine ⟨?_, ?_, ?_, ?_⟩ <;>
        simp [openItem, hact, hos, hp, hd, Finset.insert_eq_self]
    · refine ⟨?_, ?_, ?_, ?_⟩ <;>
        simp [openItem, hact, hji, hos, hp, hd, Finset.erase_singleton]

theorem closeActive_false_spec (s : MenuState) (h : MenuInv s) :
    (closeActive false s).pending = [(s.nextId, closeDelay)] ∧
    (closeActive false s).closeTimer = some s.nextId ∧
    (closeActive false s).active = s.active ∧
    (closeActive false s).openSet = s.openSet ∧
    (closeActive false s).desktop = s.desktop ∧
    (closeActive false s).nextId = s.nextId + 1 := by
  obtain ⟨hp, ho, ha, hn, hd⟩ := clearCloseTimer_fields s h
  refine ⟨?_, ?_, ?_, ?_, ?_, ?_⟩ <;> simp [closeActive, hp, ho, ha, hn, hd]

/-- Claim C3: in every reachable hover-menu state, at most one top-level
item carries the `is-open` marker; and on a desktop viewport, opening an
item leaves exactly that item marked, with no deferred close pending —
the previous item's marker is removed in the same synchronous step, not
by the deferred-close timer. -/
theorem claimC3 (s : MenuState) (h : MenuReach s) :
    s.openSet.card ≤ 1 ∧
    (s.desktop = true → ∀ i,
      (menuStep (.enterItem i) s).openSet = {i} ∧
      (menuStep (.enterItem i) s).pending = []) := by
  have inv := menuInv_reach s h
  constructor
  · rw [inv.1]
    cases s.active with
    | none => simp [activeSet]
    | some i => simp [activeSet]
  · intro hd i
    have hspec := openItem_spec i s inv
    constructor
    · simpa [menuStep, hd] using hspec.1
    · simpa [menuStep, hd] using hspec.2.1

/-- Concrete instance of C3: after opening item 0 from the initial
desktop state, opening item 1 leaves only item 1 marked open. -/
theorem claimC3_witness :
    (menuStep (.enterItem 0) (initMenu true)).openSet.card ≤ 1 ∧
    (menuStep (.enterItem 1) (menuStep (.enterItem 0) (initMenu true))).openSet = {1} ∧
    (menuStep (.enterItem 1) (menuStep (.enterItem 0) (initMenu true))).pending = [] :=
  have h := claimC3 (menuStep (.enterItem 0) (initMenu true))
    (MenuReach.next _ _ (MenuReach.init true))
  ⟨h.1, (h.2 rfl 1).1, (h.2 rfl 1).2⟩

/-- Claim C4: in every reachable hover-menu state at most one
deferred-close timer is pending (scheduling and opening always cancel
the existing timer first, so the pending set never exceeds one). -/
theorem claimC4 (s : MenuState) (h : MenuReach s) : s.pending.length ≤ 1 := by
  have inv := menuInv_reach s h
  rcases inv.2 with hp | ⟨id, -, hp⟩ <;> simp [hp]

/-- Concrete instance of C4: after opening item 0 and leaving it toward
the page, exactly one deferred close is pending. -/
theorem claimC4_witness :
    (menuStep (.leaveItem 0 false)
      (menuStep (.enterItem 0) (initMenu true))).pending.length ≤ 1 :=
  claimC4 _ (MenuReach.next _ _ (MenuReach.next _ _ (MenuReach.init true)))

/-- Claim C7: in a reachable desktop state with item `i` open, a
pointerleave of the item toward its own submenu changes nothing (no
close scheduled, item stays open); a pointerleave toward anything else
schedules exactly one deferred close with the fixed 120ms delay while
the item stays open, firing that timer closes the active item, and a
re-entry of the item or of its submenu cancels the pending close. -/
theorem claimC7 (s : MenuState) (i : Nat) (h : MenuReach s)
    (hd : s.desktop = true) (ha : s.active = some i) :
    menuStep (.leaveItem i true) s = s ∧
    (menuStep (.leaveItem i false) s).pending = [(s.nextId, closeDelay)] ∧
    closeDelay = 120 ∧
    (menuStep (.leaveItem i false) s).active = some i ∧
    (menuStep (.leaveItem i false) s).openSet = {i} ∧
    (menuStep (.timerFire s.nextId) (menuStep (.leaveItem i false) s)).active = none ∧
    (menuStep (.timerFire s.nextId) (menuStep (.leaveItem i false) s)).openSet = ∅ ∧
    (menuStep (.enterItem i) (menuStep (.leaveItem i false) s)).pending = [] ∧
    (menuStep (.enterItem i) (menuStep (.leaveItem i false) s)).active = some i ∧
    (menuStep (.enterSub i) (menuStep (.leaveItem i false) s)).pending = [] ∧
    (menuStep (.enterSub i) (menuStep (.leaveItem i false) s)).active = some i := by
  have inv := menuInv_reach s h
  have hos : s.openSet = {i} := by rw [inv.1, ha]; rfl
  have hstep : menuStep (.leaveItem i false) s = closeActive false s := by
    simp [menuStep, hd]
  obtain ⟨cp, cct, cac, cos, cde, cni⟩ := closeActive_false_spec s inv
  have inv' : MenuInv (closeActive false s) := menuInv_closeActive false s inv
  have hreach' : MenuReach (closeActive false s) := by
    rw [← hstep]; exact MenuReach.next _ _ h
  refine ⟨?_, ?_, rfl, ?_, ?_, ?_, ?_, ?_, ?_, ?_, ?_⟩
  · simp [menuStep, hd]
  · rw [hstep]; exact cp
  · rw [hstep, cac]; exact ha
  · rw [hstep, cos]; exact hos
  · rw [hstep]
    have hany : (closeActive false s).pending.any (fun p => p.1 = s.nextId) = true := by
      simp [cp]
    simp only [menuStep, fireTimer, hany, if_true]
    rw [doClose]
    have : (closeActive false s).active = some i := by rw [cac]; exact ha
    simp [this]
  · rw [hstep]
    have hany : (closeActive false s).pending.any (fun p => p.1 = s.nextId) = true := by
      simp [cp]
    simp only [menuStep, fireTimer, hany, if_true]
    rw [doClose]
    have hai : (closeActive false s).active = some i := by rw [cac]; exact ha
    simp [hai, cos, hos, Finset.erase_singleton]
  · rw [hstep]
    have hd' : (closeActive false s).desktop = true := by rw [cde]; exact hd
    simpa [menuStep, hd'] using (openItem_spec i _ inv').2.1
  · rw [hstep]
    have hd' : (closeActive false s).desktop = true := by rw [cde]; exact hd
    simpa [menuStep, hd'] using (openItem_spec i _ inv').2.2.1
  · rw [hstep]
    have hd' : (closeActive false s).desktop = true := by rw [cde]; exact hd
    simpa [menuStep, hd'] using
      (openItem_spec i _ (menuInv_clear _ inv')).2.1
  · rw [hstep]
    have hd' : (closeActive false s).desktop = true := by rw [cde]; exact hd
    simpa [menuStep, hd'] using
      (openItem_spec i _ (menuInv_clear _ inv')).2.2.1

/-- Concrete instance of C7 at the state reached by opening item 0 from
the initial desktop state. -/
theorem claimC7_witness :
    menuStep (.leaveItem 0 true) (menuStep (.enterItem 0) (initMenu true)) =
      menuStep (.enterItem 0) (initMenu true) ∧
    (menuStep (.leaveItem 0 false)
      (menuStep (.enterItem 0) (initMenu true))).pending =
      [((menuStep (.enterItem 0) (initMenu true)).nextId, closeDelay)] ∧
    (menuStep (.timerFire (menuStep (.enterItem 0) (initMenu true)).nextId)
      (menuStep (.leaveItem 0 false)
        (menuStep (.enterItem 0) (initMenu true)))).openSet = ∅ :=
  have h := claimC7 (menuStep (.enterItem 0) (initMenu true)) 0
    (MenuReach.next _ _ (MenuReach.init true)) rfl rfl
  ⟨h.1, h.2.1, h.2.2.2.2.2.2.1⟩

end Site
